import Mathlib

/-!
Verification of the Auto1 price-prediction notebook (`code/model.ipynb`).

The notebook loads a tabular automotive dataset (missing values read as NaN from
the `?` sentinel), drops rows with a missing `price`, splits train/held-out with
a fixed seed, and runs cross-validated hyperparameter searches over
impute → (scale) → regress pipelines, finally comparing three experiments and
reporting a held-out mean absolute error.

This file gives a shallow embedding of those steps.  A table is a list of rows;
a row is an ordered association list of column name to cell; a cell is either a
numeric value or a categorical value, each possibly missing (`none` models NaN).
Floating point numbers are modelled by rationals.  The statistics library
(pandas / scikit-learn) is external to the repository, so its operations are
embedded by their documented semantics at the notebook's call sites: filtering
for `dropna`, one-hot expansion for `get_dummies`, a deterministic seeded
permutation for `train_test_split`, contiguous folds for 5-fold
cross-validation, median/mean/variance statistics for the imputer and scaler,
and first-minimum selection for the searches.
-/

namespace Auto1

/-- A cell of the dataset: a numeric value or a categorical (string) value,
either possibly missing (`none` models NaN, produced on load from the `?`
sentinel via `na_values`). -/
inductive Cell where
  | num (v : Option ℚ)
  | cat (v : Option String)
deriving DecidableEq, Repr

/-- A row of the dataset: an ordered association list of column name to cell. -/
abbrev Row := List (String × Cell)

/-- A table: a list of rows. -/
abbrev Table := List Row

/-- Whether a cell belongs to a numeric dtype column (possibly NaN). -/
def Cell.isNumeric : Cell → Bool
  | Cell.num _ => true
  | Cell.cat _ => false

/-- Whether a cell is missing (NaN in either dtype). -/
def Cell.isMissing : Cell → Bool
  | Cell.num none => true
  | Cell.cat none => true
  | _ => false

/-- Whether a row has a missing value in its `price` cell. -/
def rowPriceMissing (r : Row) : Bool :=
  r.any (fun nc => nc.1 == "price" && nc.2.isMissing)

/-- `data.dropna(subset=["price"])` (notebook cell 6): drop every row whose
`price` value is missing. -/
def dropnaPrice (t : Table) : Table :=
  t.filter (fun r => !(rowPriceMissing r))

/-- `tr.select_dtypes(include=['int64', 'float64'])` (cell 10), per row: keep
only the numeric-dtype cells. -/
def select_dtypes (r : Row) : Row :=
  r.filter (fun nc => nc.2.isNumeric)

/-- `tr.drop(['price'], axis=1)`: remove the target column, leaving the feature
matrix handed to `fit` / `score`. -/
def dropPriceCol (t : Table) : Table :=
  t.map (fun r => r.filter (fun nc => !(nc.1 == "price")))

/-- The present numeric value of a cell, if any. -/
def numValue : Cell → Option ℚ
  | Cell.num (some v) => some v
  | _ => none

/-- The `price` value of a row (`tr.price`); the notebook only reads it after
rows with missing price were dropped, so the `0` default is never meaningful. -/
def priceOf (r : Row) : ℚ :=
  ((r.lookup "price").bind numValue).getD 0

/-- The distinct observed (non-missing) values of categorical column `c`
across the whole table; `pd.get_dummies` creates one indicator column per such
value. -/
def observedVals (t : Table) (c : String) : List String :=
  (t.flatMap (fun r => r.filterMap (fun nc =>
    match nc with
    | (n, Cell.cat (some v)) => if n = c then some v else none
    | _ => none))).dedup

/-- One-hot encoding of a single cell of a row (`pd.get_dummies` semantics):
a numeric cell is kept unchanged; a categorical cell named `n` is replaced by
one indicator cell per observed value of column `n`, holding `1` for the cell's
own value and `0` otherwise (all `0` when the value is missing, the library's
`dummy_na=False` default). -/
def encodeCell (t : Table) (nc : String × Cell) : List (String × Cell) :=
  match nc with
  | (n, Cell.num v) => [(n, Cell.num v)]
  | (n, Cell.cat v) =>
      (observedVals t n).map (fun s =>
        (n ++ "_" ++ s, Cell.num (some (if v = some s then 1 else 0))))

/-- One-hot encoding of a whole row. -/
def encodeRow (t : Table) (r : Row) : Row :=
  r.flatMap (encodeCell t)

/-- `pd.get_dummies(data)` (cell 32): encode every row of the table. -/
def get_dummies (t : Table) : Table :=
  t.map (encodeRow t)

/-! ### Sorting-based numeric statistics (imputer / scaler fit) -/

/-- Ascending sort of a list of rationals. -/
def sortedVals (xs : List ℚ) : List ℚ :=
  List.insertionSort (· ≤ ·) xs

/-- `np.median`: middle element of the sorted values (mean of the two middle
elements for an even count); `0` for the empty list, a case the notebook never
hits. -/
def median (xs : List ℚ) : ℚ :=
  if xs.length = 0 then 0
  else if xs.length % 2 = 1 then (sortedVals xs).getD (xs.length / 2) 0
  else ((sortedVals xs).getD (xs.length / 2 - 1) 0
        + (sortedVals xs).getD (xs.length / 2) 0) / 2

/-- Arithmetic mean (`0` for the empty list). -/
def mean (xs : List ℚ) : ℚ :=
  xs.sum / xs.length

/-- Population variance, the square of the standard deviation fitted by
`StandardScaler` (which uses `ddof = 0`). -/
def variance (xs : List ℚ) : ℚ :=
  mean (xs.map (fun x => (x - mean xs) ^ 2))

/-- The present values of numeric column `c` over the given rows; the
`Imputer(strategy='median')` statistic is their median. -/
def colVals (rows : Table) (c : String) : List ℚ :=
  rows.filterMap (fun r => (r.lookup c).bind numValue)

/-- Column `c` after median imputation on the given rows (every missing entry
replaced by the median of the present ones). -/
def imputedCol (rows : Table) (c : String) : List ℚ :=
  rows.map (fun r => ((r.lookup c).bind numValue).getD (median (colVals rows c)))

/-- Imputation statistic of column `c` fitted on the given rows. -/
def colMedian (rows : Table) (c : String) : ℚ :=
  median (colVals rows c)

/-- Scaler mean of column `c`, fitted on the imputed training rows. -/
def colMean (rows : Table) (c : String) : ℚ :=
  mean (imputedCol rows c)

/-- Scaler variance of column `c`, fitted on the imputed training rows;
the scaler divides by its square root. -/
def colVariance (rows : Table) (c : String) : ℚ :=
  variance (imputedCol rows c)

/-- All preprocessing statistics the pipeline fits on a set of training rows:
for each feature column its imputation median, scaler mean and scaler
variance.  These are what gets applied to the corresponding held-out rows. -/
def fitFoldStats (cols : List String) (rows : Table) : List (String × ℚ × ℚ × ℚ) :=
  cols.map (fun c => (c, colMedian rows c, colMean rows c, colVariance rows c))

/-! ### Seeded train/test split -/

/-- One step of a linear congruential generator; stands in for the library's
seeded pseudorandom generator (NumPy's MT19937 is external library code — every
property proved below uses only that the generator is a deterministic function
of the seed). -/
def lcgNext (x : ℕ) : ℕ :=
  (1103515245 * x + 12345) % 2 ^ 31

/-- The i-th pseudorandom number of the seeded stream. -/
def lcgStream (seed : ℕ) : ℕ → ℕ
  | 0 => lcgNext (seed + 1)
  | n + 1 => lcgNext (lcgStream seed n)

instance : DecidableRel (fun a b : ℕ × ℕ => a.1 ≤ b.1) :=
  fun a b => Nat.decLe a.1 b.1

/-- The seeded permutation of row indices `0, …, n-1` used by
`train_test_split(random_state = seed)`: indices sorted by a pseudorandom key
drawn per index.  It depends only on the seed and the row count. -/
def shuffledIndices (seed n : ℕ) : List ℕ :=
  (List.insertionSort (fun a b : ℕ × ℕ => a.1 ≤ b.1)
    ((List.range n).map (fun i => (lcgStream seed i, i)))).map Prod.snd

/-- The held-out size: `ceil(test_size * n)`, as the library computes it. -/
def nTest (test_size : ℚ) (n : ℕ) : ℕ :=
  (⌈test_size * n⌉).toNat

/-- The rows of `t` at the given indices, in order. -/
def selectRows (t : List α) (idx : List ℕ) : List α :=
  idx.filterMap (fun j => t[j]?)

/-- `train_test_split(t, test_size, random_state)` (cells 8 and 38): permute
the row indices with the seeded generator, put the first `nTest` permuted rows
in the held-out partition and the rest in the training partition; returns
`(train, test)`. -/
def train_test_split (random_state : ℕ) (test_size : ℚ) (t : List α) :
    List α × List α :=
  let idx := shuffledIndices random_state t.length
  let k := nTest test_size t.length
  (selectRows t (idx.drop k), selectRows t (idx.take k))

/-! ### 5-fold cross-validation (KFold with contiguous folds) -/

/-- Start index of fold `i` of `k` contiguous folds over `n` rows (the first
`n % k` folds get one extra row). -/
def foldStart (k n i : ℕ) : ℕ :=
  i * (n / k) + min i (n % k)

/-- Size of fold `i`. -/
def foldSize (k n i : ℕ) : ℕ :=
  n / k + if i < n % k then 1 else 0

/-- Indices held out by fold `i`. -/
def testFoldIndices (k n i : ℕ) : List ℕ :=
  List.range' (foldStart k n i) (foldSize k n i)

/-- Indices trained on by fold `i`: every row index outside the held-out
block. -/
def trainFoldIndices (k n i : ℕ) : List ℕ :=
  (List.range n).filter (fun j =>
    decide (j < foldStart k n i) || decide (foldStart k n i + foldSize k n i ≤ j))

/-- Mean absolute error of a predictor against the `price` column over a set
of rows. -/
def maeOn (predict : Row → ℚ) (rows : Table) : ℚ :=
  mean (rows.map (fun r => |predict r - priceOf r|))

/-- The cross-validated score of one pipeline configuration
(`scoring='neg_mean_absolute_error'`, sign dropped since the notebook negates
it back): for each of the `k` folds the whole pipeline is refit on the fold's
training rows and scored by MAE on its held-out rows; the configuration's
score is the mean over folds.  `fitPredict trainRows` is the predictor
obtained by fitting the full pipeline on `trainRows`. -/
def cvMeanMAE (fitPredict : Table → Row → ℚ) (k : ℕ) (rows : Table) : ℚ :=
  mean ((List.range k).map (fun i =>
    maeOn (fitPredict (selectRows rows (trainFoldIndices k rows.length i)))
      (selectRows rows (testFoldIndices k rows.length i))))

/-! ### Grid search over the ridge regularization weight -/

/-- `alpha_range = np.array([10, 1, 0.1, 0.01, 0.001, 0.0001, 0])`
(cells 20 and 40). -/
def alpha_range : List ℚ :=
  [10, 1, 1/10, 1/100, 1/1000, 1/10000, 0]

/-- First minimum of `f` over `x :: xs` (earlier elements win ties, matching
the search's first-best tie-break). -/
def argminBy (f : α → ℚ) (x : α) (xs : List α) : α :=
  xs.foldl (fun b c => if f c < f b then c else b) x

/-- The outcome of a `GridSearchCV.fit`: the selected candidate and the
estimator refit with it. -/
structure GridSearchResult (M : Type) where
  best_alpha : ℚ
  best_estimator : M

/-- The cross-validated score the grid search assigns to one candidate
regularization weight: the 5-fold mean MAE of the pipeline fitted with that
weight.  The ridge pipeline itself (`impute → scale → ridge`) is abstracted by
`fitPipeline`/`predictWith`. -/
def gsScore (fitPipeline : ℚ → Table → M) (predictWith : M → Row → ℚ)
    (rows : Table) (a : ℚ) : ℚ :=
  cvMeanMAE (fun trs => predictWith (fitPipeline a trs)) 5 rows

/-- `GridSearchCV(pipeline, {'rgs__alpha': alpha_range},
scoring='neg_mean_absolute_error', cv=5).fit(...)` (cells 20/22 and 40/41):
score every candidate regularization weight by 5-fold cross-validated mean
MAE, select the best (lowest MAE, first candidate on ties) and refit the full
pipeline on the entire training partition with it. -/
def gridSearchCV (fitPipeline : ℚ → Table → M) (predictWith : M → Row → ℚ)
    (rows : Table) : GridSearchResult M :=
  ⟨argminBy (gsScore fitPipeline predictWith rows) alpha_range.headI alpha_range.tail,
   fitPipeline
     (argminBy (gsScore fitPipeline predictWith rows) alpha_range.headI alpha_range.tail)
     rows⟩

/-- `-gs.score(X, y)` (cell 47): the held-out mean absolute error.  The
library raises on an empty evaluation set (`error_score='raise'`,
`check_array` rejects 0 samples), modelled as `none`. -/
def heldOutMAE (predict : Row → ℚ) (rows : Table) : Option ℚ :=
  if rows.isEmpty then none else some (maeOn predict rows)

/-! ### Randomized search over the gradient-boosting hyperparameters -/

/-- `learning_rate_vals = [0.1, 0.05, 0.02, 0.01]` (cell 28). -/
def learning_rate_vals : List ℚ :=
  [1/10, 1/20, 1/50, 1/100]

/-- `max_features_vals = [1.0, 0.3, 0.1]` (cell 28). -/
def max_features_vals : List ℚ :=
  [1, 3/10, 1/10]

/-- `n_points = 20` (cell 28): the randomized-search budget (`n_iter`). -/
def n_points : ℕ := 20

/-- `n_estimators=3000` (cell 25): the fixed tree count of the gradient
boosting regressor; it is not part of the searched grid. -/
def gb_n_estimators : ℕ := 3000

/-- One sampled gradient-boosting configuration: the four searched
hyperparameters of cell 28. -/
structure GBParams where
  learning_rate : ℚ
  max_depth : ℕ
  min_samples_leaf : ℕ
  max_features : ℚ
deriving DecidableEq, Repr

/-- One draw of `RandomizedSearchCV`'s sampler (seeded, `random_state = 0`):
`learning_rate` uniformly from its list, `max_depth` from
`sp_randint(4, 6)` = {4, 5}, `min_samples_leaf` from `sp_randint(3, 17)` =
{3, …, 16}, `max_features` uniformly from its list.  `g` abstracts the seeded
pseudorandom stream. -/
def sampleGBParams (g : ℕ → ℕ) (i : ℕ) : GBParams where
  learning_rate := learning_rate_vals.getD (g (4 * i) % learning_rate_vals.length) 0
  max_depth := 4 + g (4 * i + 1) % 2
  min_samples_leaf := 3 + g (4 * i + 2) % 14
  max_features := max_features_vals.getD (g (4 * i + 3) % max_features_vals.length) 0

/-- `RandomizedSearchCV(..., n_iter = n_points, random_state = 0)` (cell 28):
the list of sampled candidate configurations, one per trial. -/
def randomizedCandidates (g : ℕ → ℕ) : List GBParams :=
  (List.range n_points).map (sampleGBParams g)

/-- The tree count of the gradient-boosting model built for a sampled
candidate: `n_estimators` is set once at pipeline construction and is not
among the sampled parameters, so it is the same for every candidate. -/
def gbTreeCount (_p : GBParams) : ℕ :=
  gb_n_estimators

/-- A step of an sklearn `Pipeline`, as named in the notebook. -/
inductive PipelineStep where
  | imputer
  | scaler
  | rgs
deriving DecidableEq, Repr

/-- The ridge pipeline (cells 18 and 40): impute → scale → ridge. -/
def ridge_pipeline_steps : List PipelineStep :=
  [PipelineStep.imputer, PipelineStep.scaler, PipelineStep.rgs]

/-- The gradient-boosting pipeline (cell 25): impute → regressor, with no
scaling step. -/
def gb_pipeline_steps : List PipelineStep :=
  [PipelineStep.imputer, PipelineStep.rgs]

/-! ### The performance comparison table -/

/-- One row of the `performances` dataframe (cell 44). -/
structure PerfRow where
  experiment : String
  maeMean : ℚ
  maeStd : ℚ
deriving DecidableEq, Repr

/-- The `performances` dataframe built in cell 44: one row per experiment, in
loop order, holding the experiment label, its mean cross-validated MAE and the
MAE standard deviation. -/
def performances (ridgeNum gb ridgeCat : ℚ × ℚ) : List PerfRow :=
  [⟨"Ridge num", ridgeNum.1, ridgeNum.2⟩,
   ⟨"Gradient boosting", gb.1, gb.2⟩,
   ⟨"Ridge cat", ridgeCat.1, ridgeCat.2⟩]

instance : DecidableRel (fun a b : PerfRow => a.maeMean ≤ b.maeMean) :=
  fun a b => inferInstanceAs (Decidable (a.maeMean ≤ b.maeMean))

/-- `performances.sort_values(by='MAE mean')` (cell 45): sort the table
ascending by mean MAE. -/
def sort_values (t : List PerfRow) : List PerfRow :=
  List.insertionSort (fun a b => a.maeMean ≤ b.maeMean) t

/-! ### The notebook's dataflow (cells 2–47), as functions of the raw table -/

/-- `random_state = 0` (cell 2). -/
def random_state : ℕ := 0

/-- `test_size = 0.33` (cell 2). -/
def test_size : ℚ := 33 / 100

/-- Cell 6: the cleaned table, raw data minus rows with missing price. -/
def cleanedData (raw : Table) : Table :=
  dropnaPrice raw

/-- Cell 8: `tr, te = train_test_split(data, test_size, random_state)`. -/
def trSplit (raw : Table) : Table × Table :=
  train_test_split random_state test_size (cleanedData raw)

/-- Cells 8 and 10: the numeric-variant training partition, restricted to
numeric columns. -/
def tr (raw : Table) : Table :=
  (trSplit raw).1.map select_dtypes

/-- Cell 8: the numeric-variant held-out partition. -/
def te (raw : Table) : Table :=
  (trSplit raw).2

/-- Cell 32: `data_cat = pd.get_dummies(data)`. -/
def data_cat (raw : Table) : Table :=
  get_dummies (cleanedData raw)

/-- Cell 38: `tr, te = train_test_split(data_cat, test_size, random_state)`. -/
def trCatSplit (raw : Table) : Table × Table :=
  train_test_split random_state test_size (data_cat raw)

/-- Cell 38: the encoded-variant training partition. -/
def tr_cat (raw : Table) : Table :=
  (trCatSplit raw).1

/-- Cell 38: the encoded-variant held-out partition. -/
def te_cat (raw : Table) : Table :=
  (trCatSplit raw).2

/-- The feature matrix passed to every `fit` and `score` call:
`X = t.drop(['price'], axis=1)` (cells 22, 29, 41, 47). -/
def fitFeatures (t : Table) : Table :=
  dropPriceCol t

/-- The target vector passed to every `fit` and `score` call: `y = t.price`
(cells 22, 29, 41, 47). -/
def fitTarget (t : Table) : List ℚ :=
  t.map priceOf

/-! ### Small concrete tables used to exercise the theorems -/

/-- A five-row single-column table (fold sizes of KFold(5) are all 1 on it). -/
def c2Base : Table :=
  [[("x", Cell.num (some 9))], [("x", Cell.num (some 1))], [("x", Cell.num (some 2))],
   [("x", Cell.num none)], [("x", Cell.num (some 4))]]

/-- `c2Base` with the feature value of row 0 — the row held out by fold 0 —
perturbed. -/
def c2Pert : Table :=
  [[("x", Cell.num (some 1000))], [("x", Cell.num (some 1))], [("x", Cell.num (some 2))],
   [("x", Cell.num none)], [("x", Cell.num (some 4))]]

/-- A row of a two-value categorical column. -/
def c4Row : Row :=
  [("fuel", Cell.cat (some "gas")), ("price", Cell.num (some 1))]

/-- A two-row table whose `fuel` column has two observed values. -/
def c4Table : Table :=
  [c4Row, [("fuel", Cell.cat (some "diesel")), ("price", Cell.num (some 2))]]

/-- A table whose second row has a missing value in its categorical column. -/
def c4Missing : Table :=
  [[("fuel", Cell.cat (some "gas"))], [("fuel", Cell.cat none)]]

/-- A raw table: five rows with present price, one row with missing price. -/
def c5Raw : Table :=
  [[("price", Cell.num (some 10))], [("price", Cell.num (some 20))],
   [("price", Cell.num none)], [("price", Cell.num (some 30))],
   [("price", Cell.num (some 40))], [("price", Cell.num (some 50))]]

/-- A single-row evaluation table with price 3. -/
def c6Row : Row :=
  [("price", Cell.num (some 3))]

/-- A constant predictor. -/
def c6Predict : Row → ℚ :=
  fun _ => 5

/-- A row with numeric, categorical and target cells. -/
def c10Row : Row :=
  [("width", Cell.num (some 64)), ("fuel", Cell.cat (some "gas")),
   ("price", Cell.num (some 13495))]

/-- The one-row table around `c10Row`. -/
def c10Table : Table :=
  [c10Row]

/-! ## Helper lemmas -/

theorem argminBy_nil (f : α → ℚ) (x : α) : argminBy f x [] = x := rfl

theorem argminBy_cons (f : α → ℚ) (x y : α) (ys : List α) :
    argminBy f x (y :: ys) = argminBy f (if f y < f x then y else x) ys := rfl

theorem argminBy_mem (f : α → ℚ) (x : α) (xs : List α) : argminBy f x xs ∈ x :: xs := by
  induction xs generalizing x with
  | nil => simp [argminBy_nil]
  | cons y ys ih =>
    rw [argminBy_cons]
    rcases List.mem_cons.mp (ih (if f y < f x then y else x)) with h1 | h1
    · rw [h1]
      by_cases h : f y < f x
      · simp [h]
      · simp [h]
    · exact List.mem_cons_of_mem _ (List.mem_cons_of_mem _ h1)

theorem argminBy_le_init (f : α → ℚ) (x : α) (xs : List α) :
    f (argminBy f x xs) ≤ f x := by
  induction xs generalizing x with
  | nil => simp [argminBy_nil]
  | cons y ys ih =>
    rw [argminBy_cons]
    by_cases h : f y < f x
    · rw [if_pos h]
      exact le_trans (ih y) (le_of_lt h)
    · rw [if_neg h]
      exact ih x

theorem argminBy_le_mem (f : α → ℚ) (x : α) (xs : List α) :
    ∀ y ∈ xs, f (argminBy f x xs) ≤ f y := by
  induction xs generalizing x with
  | nil =>
    intro y hy
    simp at hy
  | cons z zs ih =>
    intro y hy
    rw [argminBy_cons]
    rcases List.mem_cons.mp hy with h1 | h1
    · subst h1
      refine le_trans (argminBy_le_init f _ zs) ?_
      by_cases h : f y < f x
      · rw [if_pos h]
      · rw [if_neg h]
        exact not_lt.mp h
    · exact ih _ _ h1

theorem argminBy_le (f : α → ℚ) (x : α) (xs : List α) :
    ∀ y ∈ x :: xs, f (argminBy f x xs) ≤ f y := by
  intro y hy
  rcases List.mem_cons.mp hy with h1 | h1
  · exact h1 ▸ argminBy_le_init f x xs
  · exact argminBy_le_mem f x xs y h1

theorem selectRows_map (t : List α) (f : α → β) (idx : List ℕ) :
    selectRows (t.map f) idx = (selectRows t idx).map f := by
  unfold selectRows
  rw [List.map_filterMap]
  apply List.filterMap_congr
  intro j _
  exact List.getElem?_map f t j

theorem mem_selectRows {t : List α} {idx : List ℕ} {x : α}
    (h : x ∈ selectRows t idx) : x ∈ t := by
  unfold selectRows at h
  rw [List.mem_filterMap] at h
  obtain ⟨j, _, hj⟩ := h
  obtain ⟨hlt, he⟩ := List.getElem?_eq_some.mp hj
  exact he ▸ List.getElem_mem hlt

theorem train_test_split_map (seed : ℕ) (ts : ℚ) (t : List α) (f : α → β) :
    train_test_split seed ts (t.map f)
      = ((train_test_split seed ts t).1.map f, (train_test_split seed ts t).2.map f) := by
  simp only [train_test_split, List.length_map, selectRows_map]

theorem mem_train_of_split {seed : ℕ} {ts : ℚ} {t : List α} {x : α}
    (h : x ∈ (train_test_split seed ts t).1) : x ∈ t :=
  mem_selectRows h

theorem mem_test_of_split {seed : ℕ} {ts : ℚ} {t : List α} {x : α}
    (h : x ∈ (train_test_split seed ts t).2) : x ∈ t :=
  mem_selectRows h

theorem mem_dropnaPrice {t : Table} {r : Row} (h : r ∈ dropnaPrice t) :
    rowPriceMissing r = false := by
  unfold dropnaPrice at h
  have := (List.mem_filter.mp h).2
  simpa using this

theorem any_filter_false {p q : (String × Cell) → Bool} {r : Row}
    (h : r.any p = false) : (r.filter q).any p = false := by
  rw [List.any_eq_false] at h ⊢
  intro x hx
  exact h x (List.mem_of_mem_filter hx)

theorem select_dtypes_priceMissing {r : Row} (h : rowPriceMissing r = false) :
    rowPriceMissing (select_dtypes r) = false :=
  any_filter_false h

theorem encodeRow_priceMissing (t : Table) {r : Row}
    (h : rowPriceMissing r = false) : rowPriceMissing (encodeRow t r) = false := by
  unfold rowPriceMissing at h ⊢
  rw [List.any_eq_false] at h ⊢
  rintro ⟨n, c⟩ hnc
  unfold encodeRow at hnc
  rw [List.mem_flatMap] at hnc
  obtain ⟨⟨n0, c0⟩, hnc0, hin⟩ := hnc
  cases c0 with
  | num v =>
    simp only [encodeCell, List.mem_singleton, Prod.mk.injEq] at hin
    obtain ⟨h1, h2⟩ := hin
    subst h1
    subst h2
    exact h (n, Cell.num v) hnc0
  | cat v =>
    simp only [encodeCell, List.mem_map, Prod.mk.injEq] at hin
    obtain ⟨s, _, _, h2⟩ := hin
    subst h2
    simp [Cell.isMissing]

theorem mem_observedVals {t : Table} {r : Row} {c v : String}
    (hr : r ∈ t) (hc : (c, Cell.cat (some v)) ∈ r) : v ∈ observedVals t c := by
  unfold observedVals
  rw [List.mem_dedup, List.mem_flatMap]
  refine ⟨r, hr, ?_⟩
  rw [List.mem_filterMap]
  exact ⟨(c, Cell.cat (some v)), hc, by simp⟩

theorem getD_mem_of_lt (l : List α) (d : α) (i : ℕ) (h : i < l.length) :
    l.getD i d ∈ l := by
  rw [List.getD_eq_getElem l d h]
  exact List.getElem_mem h

/-! ## The claims -/

/-- C1: with the fixed seed (`random_state = 0`) and fixed proportion
(`test_size = 0.33`), the train/held-out split is reproducible — re-running it
on the cleaned data yields the same partitions — and the split of the one-hot
encoded table puts each original row in the same partition as the split of the
un-encoded table: the encoded train (resp. held-out) partition is exactly the
row-wise encoding of the un-encoded train (resp. held-out) partition. -/
theorem C1_split_reproducible_and_variant_aligned (raw : Table) :
    train_test_split random_state test_size (cleanedData raw)
        = train_test_split random_state test_size (cleanedData raw)
    ∧ tr_cat raw = (trSplit raw).1.map (encodeRow (cleanedData raw))
    ∧ te_cat raw = (trSplit raw).2.map (encodeRow (cleanedData raw)) := by
  refine ⟨rfl, ?_, ?_⟩
  · simp only [tr_cat, trCatSplit, data_cat, get_dummies, trSplit, train_test_split_map]
  · simp only [te_cat, trCatSplit, data_cat, get_dummies, trSplit, train_test_split_map]

/-- C2: the preprocessing statistics a cross-validation fold applies to its
held-out rows — imputation median, scaler mean and scaler variance per column —
are a function of that fold's training rows only: if two tables of the same
size agree on every training-row index of fold `i` (so they may differ
arbitrarily on the held-out rows, e.g. by perturbing a held-out feature
value), the fitted fold statistics coincide. -/
theorem C2_fold_stats_depend_only_on_training_rows (cols : List String)
    (t t2 : Table) (i : ℕ) (hlen : t2.length = t.length)
    (hagree : ∀ j ∈ trainFoldIndices 5 t.length i, t[j]? = t2[j]?) :
    fitFoldStats cols (selectRows t (trainFoldIndices 5 t.length i))
      = fitFoldStats cols (selectRows t2 (trainFoldIndices 5 t2.length i)) := by
  rw [hlen]
  unfold selectRows
  exact congrArg (fitFoldStats cols) (List.filterMap_congr hagree)

/-- C2 witness: on a concrete 5-row table, perturbing the feature value of the
row held out by fold 0 (row 0) leaves the statistics fitted for fold 0
unchanged. -/
theorem C2_witness :
    c2Pert.length = c2Base.length
    ∧ (∀ j ∈ trainFoldIndices 5 c2Base.length 0, c2Base[j]? = c2Pert[j]?)
    ∧ fitFoldStats ["x"] (selectRows c2Base (trainFoldIndices 5 c2Base.length 0))
        = fitFoldStats ["x"] (selectRows c2Pert (trainFoldIndices 5 c2Pert.length 0)) :=
  ⟨by decide, by decide,
   C2_fold_stats_depend_only_on_training_rows ["x"] c2Base c2Pert 0 (by decide) (by decide)⟩

/-- C3: the selected ridge regularization weight is one of the exact seven
candidates `alpha_range = [10, 1, 0.1, 0.01, 0.001, 0.0001, 0]`; its 5-fold
cross-validated mean MAE is minimal among the candidates; and the returned
estimator is the pipeline refit on the entire training partition with the
selected weight.  `fitPipeline`/`predictWith` abstract the
impute → scale → ridge pipeline, so the theorem covers both `ridge_gs`
(cell 22) and `ridge_cat_gs` (cell 41). -/
theorem C3_grid_search_selects_argmin_alpha (M : Type)
    (fitPipeline : ℚ → Table → M) (predictWith : M → Row → ℚ) (rows : Table) :
    (gridSearchCV fitPipeline predictWith rows).best_alpha ∈ alpha_range
    ∧ (∀ b ∈ alpha_range,
        gsScore fitPipeline predictWith rows
            (gridSearchCV fitPipeline predictWith rows).best_alpha
          ≤ gsScore fitPipeline predictWith rows b)
    ∧ (gridSearchCV fitPipeline predictWith rows).best_estimator
        = fitPipeline (gridSearchCV fitPipeline predictWith rows).best_alpha rows := by
  refine ⟨?_, ?_, rfl⟩
  · exact argminBy_mem (gsScore fitPipeline predictWith rows)
      alpha_range.headI alpha_range.tail
  · intro b hb
    exact argminBy_le (gsScore fitPipeline predictWith rows)
      alpha_range.headI alpha_range.tail b hb

/-- C3 witness: the theorem instantiated with a trivial estimator; the
minimality inequality is instantiated at the concrete candidate `10`. -/
theorem C3_witness :
    ((10 : ℚ) ∈ alpha_range)
    ∧ (gridSearchCV (fun _ _ => ()) (fun _ _ => 0) []).best_alpha ∈ alpha_range
    ∧ gsScore (fun _ _ => ()) (fun _ _ => 0) []
        (gridSearchCV (fun _ _ => ()) (fun _ _ => 0) []).best_alpha
      ≤ gsScore (fun _ _ => ()) (fun _ _ => 0) [] 10
    ∧ (gridSearchCV (fun _ _ => ()) (fun _ _ => 0) []).best_estimator
        = (fun _ _ => ()) (gridSearchCV (fun _ _ => ()) (fun _ _ => 0) []).best_alpha
            ([] : Table) :=
  ⟨by decide,
   (C3_grid_search_selects_argmin_alpha Unit (fun _ _ => ()) (fun _ _ => 0) []).1,
   (C3_grid_search_selects_argmin_alpha Unit (fun _ _ => ()) (fun _ _ => 0) []).2.1
     10 (by decide),
   (C3_grid_search_selects_argmin_alpha Unit (fun _ _ => ()) (fun _ _ => 0) []).2.2⟩

/-- C4 counterexample: in a table whose categorical column `fuel` has one
observed value (`k = 1`) but whose second row has a missing `fuel` value, the
encoded second row carries its single indicator column with value `0` — that
observation has no indicator equal to `1`, so not every observation has
exactly one hot indicator among its column's `k` indicator columns. -/
theorem C4_counterexample :
    (observedVals c4Missing "fuel").length = 1
    ∧ (get_dummies c4Missing)[1]? = some [("fuel_gas", Cell.num (some 0))]
    ∧ ¬ (((get_dummies c4Missing).getD 1 []).filter
          (fun nc => nc.2 == Cell.num (some 1))).length = 1 := by
  refine ⟨rfl, rfl, ?_⟩
  decide

/-- C4 (amended): for every categorical cell `(c, w)` of a row of the table —
whatever its value `w : Option String`, present or missing — the encoding
replaces it by exactly `k` indicator cells, where `k` is the number of
distinct observed values of column `c`, and every indicator is `0` or `1`;
when the cell's value is present (`w = some v`) exactly one of the `k`
indicators is `1`; when the cell's value is missing (`w = none`) all `k`
indicators are `0`. -/
theorem C4_one_hot_exactly_k_indicators (t : Table) (r : Row) (c : String)
    (w : Option String) (hr : r ∈ t) (hc : (c, Cell.cat w) ∈ r) :
    (encodeCell t (c, Cell.cat w)).length = (observedVals t c).length
    ∧ (∀ nc ∈ encodeCell t (c, Cell.cat w),
        nc.2 = Cell.num (some 1) ∨ nc.2 = Cell.num (some 0))
    ∧ (∀ v, w = some v →
        ((encodeCell t (c, Cell.cat w)).filter
          (fun nc => nc.2 == Cell.num (some 1))).length = 1)
    ∧ (w = none →
        ∀ nc ∈ encodeCell t (c, Cell.cat w), nc.2 = Cell.num (some 0)) := by
  refine ⟨by simp [encodeCell], ?_, ?_, ?_⟩
  · intro nc hnc
    simp only [encodeCell, List.mem_map] at hnc
    obtain ⟨s, _, heq⟩ := hnc
    by_cases h : w = some s
    · left
      rw [← heq]
      simp [h]
    · right
      rw [← heq]
      simp [h]
  · intro v hw
    subst hw
    show (((observedVals t c).map _).filter _).length = 1
    rw [List.filter_map, List.length_map]
    have hpt : ∀ s ∈ observedVals t c,
        ((fun nc : String × Cell => nc.2 == Cell.num (some 1)) ∘
          (fun s => (c ++ "_" ++ s, Cell.num (some (if some v = some s then 1 else 0))))) s
        = (s == v) := by
      intro s _
      by_cases h : v = s
      · subst h
        simp
      · have h2 : ¬ (some v = some s) := by simpa using h
        simp only [Function.comp_apply, if_neg h2]
        have h3 : (Cell.num (some 0) == Cell.num (some 1)) = false := by decide
        rw [h3]
        have h4 : (s == v) = false := by
          simpa using fun hsv => h hsv.symm
        rw [h4]
    rw [List.filter_congr hpt, ← List.countP_eq_length_filter]
    exact List.count_eq_one_of_mem (List.nodup_dedup _) (mem_observedVals hr hc)
  · intro hw
    subst hw
    intro nc hnc
    simp only [encodeCell, List.mem_map] at hnc
    obtain ⟨s, _, heq⟩ := hnc
    rw [← heq]
    simp

/-- C4 witness: in a concrete two-row table with observed fuel values
`{gas, diesel}` (`k = 2`), the first row's present `fuel = gas` cell encodes
to `k` indicator cells with exactly one indicator `1`; and in the concrete
table of the counterexample, the missing-valued `fuel` cell of the second row
encodes to all-`0` indicators. -/
theorem C4_witness :
    c4Row ∈ c4Table
    ∧ ("fuel", Cell.cat (some "gas")) ∈ c4Row
    ∧ (encodeCell c4Table ("fuel", Cell.cat (some "gas"))).length
        = (observedVals c4Table "fuel").length
    ∧ ((encodeCell c4Table ("fuel", Cell.cat (some "gas"))).filter
        (fun nc => nc.2 == Cell.num (some 1))).length = 1
    ∧ (∀ nc ∈ encodeCell c4Table ("fuel", Cell.cat (some "gas")),
        nc.2 = Cell.num (some 1) ∨ nc.2 = Cell.num (some 0))
    ∧ [("fuel", Cell.cat none)] ∈ c4Missing
    ∧ (∀ nc ∈ encodeCell c4Missing ("fuel", Cell.cat none),
        nc.2 = Cell.num (some 0)) :=
  ⟨by decide, by decide,
   (C4_one_hot_exactly_k_indicators c4Table c4Row "fuel" (some "gas")
     (by decide) (by decide)).1,
   (C4_one_hot_exactly_k_indicators c4Table c4Row "fuel" (some "gas")
     (by decide) (by decide)).2.2.1 "gas" rfl,
   (C4_one_hot_exactly_k_indicators c4Table c4Row "fuel" (some "gas")
     (by decide) (by decide)).2.1,
   by decide,
   (C4_one_hot_exactly_k_indicators c4Missing [("fuel", Cell.cat none)] "fuel" none
     (by decide) (by decide)).2.2.2 rfl⟩

/-- C5: after cleaning, no row with a missing `price` value appears in any of
the four partitions: training and held-out, in both the numeric-only variant
(`tr`, `te`) and the one-hot encoded variant (`tr_cat`, `te_cat`). -/
theorem C5_no_missing_price_in_partitions (raw : Table) :
    ((tr raw ++ te raw ++ tr_cat raw ++ te_cat raw).all
      (fun r => !(rowPriceMissing r))) = true := by
  rw [List.all_eq_true]
  intro r hr
  suffices h : rowPriceMissing r = false by simp [h]
  simp only [List.mem_append] at hr
  rcases hr with ((hr | hr) | hr) | hr
  · unfold tr at hr
    rw [List.mem_map] at hr
    obtain ⟨r0, hr0, rfl⟩ := hr
    exact select_dtypes_priceMissing (mem_dropnaPrice (mem_train_of_split hr0))
  · exact mem_dropnaPrice (mem_test_of_split hr)
  · have hdc : r ∈ data_cat raw := mem_train_of_split hr
    unfold data_cat get_dummies at hdc
    rw [List.mem_map] at hdc
    obtain ⟨r0, hr0, rfl⟩ := hdc
    exact encodeRow_priceMissing _ (mem_dropnaPrice hr0)
  · have hdc : r ∈ data_cat raw := mem_test_of_split hr
    unfold data_cat get_dummies at hdc
    rw [List.mem_map] at hdc
    obtain ⟨r0, hr0, rfl⟩ := hdc
    exact encodeRow_priceMissing _ (mem_dropnaPrice hr0)

/-- C6: the reported held-out mean absolute error is non-negative whenever it
is defined, and on an empty held-out partition the evaluation is undefined
(`none`, the library raises) rather than silently `0`. -/
theorem C6_mae_nonneg_and_empty_undefined (predict : Row → ℚ) (rows : Table) :
    (∀ m, heldOutMAE predict rows = some m → 0 ≤ m)
    ∧ (rows = [] → heldOutMAE predict rows = none) := by
  constructor
  · intro m hm
    unfold heldOutMAE at hm
    by_cases h : rows.isEmpty
    · rw [if_pos h] at hm
      exact absurd hm (by simp)
    · rw [if_neg h, Option.some_inj] at hm
      rw [← hm]
      unfold maeOn mean
      apply div_nonneg
      · apply List.sum_nonneg
        intro x hx
        rw [List.mem_map] at hx
        obtain ⟨r0, _, rfl⟩ := hx
        exact abs_nonneg _
      · exact Nat.cast_nonneg _
  · intro h
    subst h
    rfl

/-- C6 witness: on a one-row held-out set with price 3 and the constant
predictor 5 the reported MAE is 2 ≥ 0, and on the empty held-out set the
evaluation is undefined. -/
theorem C6_witness :
    heldOutMAE c6Predict [c6Row] = some 2
    ∧ (0 : ℚ) ≤ 2
    ∧ heldOutMAE c6Predict [] = none := by
  have hval : heldOutMAE c6Predict [c6Row] = some 2 := by
    unfold heldOutMAE maeOn mean c6Predict c6Row priceOf
    norm_num [List.lookup, numValue]
  exact ⟨hval,
    (C6_mae_nonneg_and_empty_undefined c6Predict [c6Row]).1 2 hval,
    (C6_mae_nonneg_and_empty_undefined c6Predict []).2 rfl⟩

instance : IsTotal PerfRow (fun a b => a.maeMean ≤ b.maeMean) :=
  ⟨fun a b => le_total a.maeMean b.maeMean⟩

instance : IsTrans PerfRow (fun a b => a.maeMean ≤ b.maeMean) :=
  ⟨fun _ _ _ h1 h2 => le_trans h1 h2⟩

/-- C7: for any three experiment results, the comparison table has exactly the
three rows `Ridge num`, `Gradient boosting`, `Ridge cat` (in loop order), and
the displayed table is a permutation of it sorted ascending by mean
cross-validated MAE. -/
theorem C7_three_experiments_sorted_by_mae (ridgeNum gb ridgeCat : ℚ × ℚ) :
    (performances ridgeNum gb ridgeCat).length = 3
    ∧ (performances ridgeNum gb ridgeCat).map (fun p => p.experiment)
        = ["Ridge num", "Gradient boosting", "Ridge cat"]
    ∧ List.Perm (sort_values (performances ridgeNum gb ridgeCat))
        (performances ridgeNum gb ridgeCat)
    ∧ (sort_values (performances ridgeNum gb ridgeCat)).Sorted
        (fun a b => a.maeMean ≤ b.maeMean) :=
  ⟨rfl, rfl, List.perm_insertionSort _ _, List.sorted_insertionSort _ _⟩

/-- C8: whatever values the seeded sampler produces, the randomized search
draws exactly a budget of `n_points = 20` candidate configurations; every
candidate has its learning rate in the discrete list `[0.1, 0.05, 0.02, 0.01]`,
its tree depth in `sp_randint(4, 6)` = {4, 5}, its minimum leaf sample count in
`sp_randint(3, 17)` = {3, …, 16} and its feature-subsampling fraction in the
discrete list `[1.0, 0.3, 0.1]`; the tree count is the fixed `3000` for every
candidate (it is not searched); and the ensemble pipeline has no scaling
step. -/
theorem C8_randomized_search_space (g : ℕ → ℕ) :
    (randomizedCandidates g).length = n_points
    ∧ n_points = 20
    ∧ (∀ p ∈ randomizedCandidates g,
        p.learning_rate ∈ learning_rate_vals
        ∧ 4 ≤ p.max_depth ∧ p.max_depth < 6
        ∧ 3 ≤ p.min_samples_leaf ∧ p.min_samples_leaf < 17
        ∧ p.max_features ∈ max_features_vals)
    ∧ (∀ p : GBParams, gbTreeCount p = gb_n_estimators)
    ∧ gb_n_estimators = 3000
    ∧ PipelineStep.scaler ∉ gb_pipeline_steps
    ∧ gb_pipeline_steps = [PipelineStep.imputer, PipelineStep.rgs] := by
  refine ⟨by simp [randomizedCandidates, n_points], rfl, ?_, fun p => rfl, rfl,
    by decide, rfl⟩
  intro p hp
  simp only [randomizedCandidates, List.mem_map] at hp
  obtain ⟨i, _, rfl⟩ := hp
  simp only [sampleGBParams]
  refine ⟨?_, Nat.le_add_right 4 _, ?_, Nat.le_add_right 3 _, ?_, ?_⟩
  · exact getD_mem_of_lt _ _ _ (Nat.mod_lt _ (by decide))
  · have h2 := Nat.mod_lt (g (4 * i + 1)) (show 0 < 2 by decide)
    omega
  · have h14 := Nat.mod_lt (g (4 * i + 2)) (show 0 < 14 by decide)
    omega
  · exact getD_mem_of_lt _ _ _ (Nat.mod_lt _ (by decide))

/-- C8 witness: the theorem instantiated at the constant-zero sampler stream
and its first drawn candidate. -/
theorem C8_witness :
    sampleGBParams (fun _ => 0) 0 ∈ randomizedCandidates (fun _ => 0)
    ∧ ((sampleGBParams (fun _ => 0) 0).learning_rate ∈ learning_rate_vals
        ∧ 4 ≤ (sampleGBParams (fun _ => 0) 0).max_depth
        ∧ (sampleGBParams (fun _ => 0) 0).max_depth < 6
        ∧ 3 ≤ (sampleGBParams (fun _ => 0) 0).min_samples_leaf
        ∧ (sampleGBParams (fun _ => 0) 0).min_samples_leaf < 17
        ∧ (sampleGBParams (fun _ => 0) 0).max_features ∈ max_features_vals) := by
  have hmem : sampleGBParams (fun _ => 0) 0 ∈ randomizedCandidates (fun _ => 0) :=
    List.mem_map.mpr ⟨0, by decide, rfl⟩
  exact ⟨hmem, (C8_randomized_search_space (fun _ => 0)).2.2.1 _ hmem⟩

/-- C9: every feature matrix handed to a `fit` or `score` call is the table
with its `price` column dropped — no cell named `price` remains in any row —
while the supplied target is exactly the `price` column. -/
theorem C9_price_excluded_from_features (t : Table) :
    ((fitFeatures t).all (fun r => r.all (fun nc => !(nc.1 == "price")))) = true
    ∧ fitTarget t = t.map priceOf := by
  refine ⟨?_, rfl⟩
  rw [List.all_eq_true]
  intro r hr
  rw [List.all_eq_true]
  intro nc hnc
  simp only [fitFeatures, dropPriceCol, List.mem_map] at hr
  obtain ⟨r0, _, rfl⟩ := hr
  have := (List.mem_filter.mp hnc).2
  simpa using this

/-- C10: one-hot encoding preserves every numeric cell of every row in place:
the encoded table has the same number of rows, and the row at any position
contains every numeric cell — name and (possibly missing) value, including the
target `price` — that the original row at that position contains. -/
theorem C10_encoding_preserves_numeric_cells (t : Table) (i : ℕ) (r : Row)
    (hr : t[i]? = some r) :
    (get_dummies t).length = t.length
    ∧ (∀ n v, encodeCell t (n, Cell.num v) = [(n, Cell.num v)])
    ∧ ∃ r2, (get_dummies t)[i]? = some r2
        ∧ ∀ c v, (c, Cell.num v) ∈ r → (c, Cell.num v) ∈ r2 := by
  refine ⟨by simp [get_dummies], fun n v => rfl, encodeRow t r, ?_, ?_⟩
  · simp [get_dummies, List.getElem?_map, hr]
  · intro c v hcv
    unfold encodeRow
    rw [List.mem_flatMap]
    exact ⟨(c, Cell.num v), hcv, by simp [encodeCell]⟩

/-- C10 witness: on a concrete one-row table with a numeric, a categorical and
a price cell, the encoded row keeps the numeric cells. -/
theorem C10_witness :
    c10Table[0]? = some c10Row
    ∧ ((get_dummies c10Table).length = c10Table.length
        ∧ (∀ n v, encodeCell c10Table (n, Cell.num v) = [(n, Cell.num v)])
        ∧ ∃ r2, (get_dummies c10Table)[0]? = some r2
            ∧ ∀ c v, (c, Cell.num v) ∈ c10Row → (c, Cell.num v) ∈ r2) :=
  ⟨rfl, C10_encoding_preserves_numeric_cells c10Table 0 c10Row rfl⟩

end Auto1
